import Mathlib

/-!
Verification of the rate-limited invoker `withRateLimit` from
`src/defindex-sdk-deposit-withdraw-fee-bump/src/rate-limiter.ts`.

The TypeScript source is a sequential retry loop:

```ts
export async function withRateLimit<T>(fn, maxRetries = 5, initialDelay = 1000) {
  let lastError: any;
  for (let attempt = 0; attempt <= maxRetries; attempt++) {
    try {
      return await fn();
    } catch (error: any) {
      lastError = error;
      if (error?.statusCode === 429 || error?.error === 'Too Many Requests') {
        const retryAfter = error?.retryAfter || 1;
        const delayMs = Math.max(retryAfter * 1000, initialDelay * Math.pow(2, attempt));
        if (attempt < maxRetries) {
          await new Promise(resolve => setTimeout(resolve, delayMs));
          continue;
        }
      }
      throw error;
    }
  }
  throw lastError;
}
```

We embed it shallowly: the wrapped operation is modelled as a function from the
attempt index to the outcome of that call (`Except ErrVal T`), the loop becomes
a fuel-indexed recursion whose fuel is exactly the number of iterations the
`for` header permits (`(maxRetries + 1).toNat`), and the observable behaviour
is collected in a trace: how many times the operation was called, the list of
waits performed (in milliseconds, in order), and the final outcome (a returned
value, or a thrown value — `thrown none` models JS `throw undefined`).
-/

namespace RateLimiter

/-- A failure value thrown by the wrapped operation, with the three fields the
source inspects (`error?.statusCode`, `error?.error`, `error?.retryAfter`).
`none` models an absent / undefined field. -/
structure ErrVal where
  statusCode : Option Int
  error : Option String
  retryAfter : Option Int
  deriving Repr, DecidableEq

/-- Final outcome of one `withRateLimit` invocation: either the operation's
result is returned, or a value is thrown. `thrown none` models JS throwing the
still-undefined `lastError`. -/
inductive RLResult (T : Type) where
  | ok : T → RLResult T
  | thrown : Option ErrVal → RLResult T
  deriving Repr, DecidableEq

/-- Observable trace of one invocation: number of calls made to the operation,
the waits performed (ms, in order), and the final outcome. -/
structure RLTrace (T : Type) where
  calls : Nat
  delays : List Int
  result : RLResult T
  deriving Repr, DecidableEq

/-- Line 24: `error?.statusCode === 429 || error?.error === 'Too Many Requests'`. -/
def isRateLimit (e : ErrVal) : Bool :=
  e.statusCode == some 429 || e.error == some "Too Many Requests"

/-- Line 25: `const retryAfter = error?.retryAfter || 1`. JS `||` falls through
to `1` on every falsy value, so an absent field and a present `0` both give `1`. -/
def retryAfterOf (e : ErrVal) : Int :=
  match e.retryAfter with
  | some r => if r = 0 then 1 else r
  | none => 1

/-- Line 26: `Math.max(retryAfter * 1000, initialDelay * Math.pow(2, attempt))`. -/
def delayMs (e : ErrVal) (initialDelay : Int) (attempt : Nat) : Int :=
  max (retryAfterOf e * 1000) (initialDelay * 2 ^ attempt)

/-- The `for` loop of lines 17-38 plus the trailing `throw lastError` of
line 40. `fuel` bounds the remaining iterations; `withRateLimit` supplies
exactly the `maxRetries + 1` iterations the loop header permits, so the
fuel-exhausted branch coincides with the loop condition turning false
(both yield line 40's `throw lastError`). -/
def loop {T : Type} (op : Nat → Except ErrVal T) (maxRetries initialDelay : Int) :
    Nat → Nat → Option ErrVal → RLTrace T
  | 0, _, lastError => ⟨0, [], .thrown lastError⟩
  | fuel + 1, attempt, lastError =>
    if (attempt : Int) ≤ maxRetries then
      match op attempt with
      | .ok v => ⟨1, [], .ok v⟩
      | .error e =>
        if isRateLimit e then
          if (attempt : Int) < maxRetries then
            let rest := loop op maxRetries initialDelay fuel (attempt + 1) (some e)
            ⟨rest.calls + 1, delayMs e initialDelay attempt :: rest.delays, rest.result⟩
          else ⟨1, [], .thrown (some e)⟩
        else ⟨1, [], .thrown (some e)⟩
    else ⟨0, [], .thrown lastError⟩

/-- `withRateLimit fn maxRetries initialDelay`: run the loop from attempt 0
with `lastError` uninitialised. -/
def withRateLimit {T : Type} (op : Nat → Except ErrVal T)
    (maxRetries : Int := 5) (initialDelay : Int := 1000) : RLTrace T :=
  loop op maxRetries initialDelay (maxRetries + 1).toNat 0 none

/-- The delay formula exactly as claim C2 words it: `(r if present, otherwise
1) * 1000` maxed with the exponential term. This is the spec-side formula
(JS `??` semantics); the source's line 25 uses `||`, which also coerces a
present `0` to `1`. -/
def claimedDelayC2 (r : Option Int) (initialDelay : Int) (i : Nat) : Int :=
  max (r.getD 1 * 1000) (initialDelay * 2 ^ i)

/-- The delay formula of the amended C2: `r` is used when present and nonzero,
otherwise `1`, matching the falsy coercion of `||` on line 25. -/
def amendedDelay (r : Option Int) (initialDelay : Int) (i : Nat) : Int :=
  max ((match r with | some x => if x = 0 then 1 else x | none => 1) * 1000)
    (initialDelay * 2 ^ i)

section Lemmas

variable {T : Type}

/-- Unfolding: a successful call returns immediately with one call, no delay. -/
lemma loop_ok (op : Nat → Except ErrVal T) (mr d : Int) (f a : Nat)
    (le : Option ErrVal) (v : T) (hle : (a : Int) ≤ mr) (hop : op a = .ok v) :
    loop op mr d (f + 1) a le = ⟨1, [], .ok v⟩ := by
  simp [loop, hle, hop]

/-- Unfolding: a rate-limit failure with retry budget left waits `delayMs` and
continues with the next attempt, `lastError` now holding the failure. -/
lemma loop_retry (op : Nat → Except ErrVal T) (mr d : Int) (f a : Nat)
    (le : Option ErrVal) (e : ErrVal) (hlt : (a : Int) < mr)
    (hop : op a = .error e) (hRL : isRateLimit e = true) :
    loop op mr d (f + 1) a le =
      ⟨(loop op mr d f (a + 1) (some e)).calls + 1,
       delayMs e d a :: (loop op mr d f (a + 1) (some e)).delays,
       (loop op mr d f (a + 1) (some e)).result⟩ := by
  simp [loop, le_of_lt hlt, hop, hRL, hlt]

/-- Unfolding: a rate-limit failure on the final permitted attempt is rethrown. -/
lemma loop_exhaust (op : Nat → Except ErrVal T) (mr d : Int) (f a : Nat)
    (le : Option ErrVal) (e : ErrVal) (hle : (a : Int) ≤ mr)
    (hnlt : ¬ (a : Int) < mr) (hop : op a = .error e)
    (hRL : isRateLimit e = true) :
    loop op mr d (f + 1) a le = ⟨1, [], .thrown (some e)⟩ := by
  simp [loop, hle, hop, hRL, hnlt]

/-- Unfolding: a failure not classified as rate limit is rethrown at once. -/
lemma loop_throw (op : Nat → Except ErrVal T) (mr d : Int) (f a : Nat)
    (le : Option ErrVal) (e : ErrVal) (hle : (a : Int) ≤ mr)
    (hop : op a = .error e) (hRL : isRateLimit e = false) :
    loop op mr d (f + 1) a le = ⟨1, [], .thrown (some e)⟩ := by
  simp [loop, hle, hop, hRL]

/-- Master invariant of the loop, run from attempt `a` with exactly the fuel
the `for` header still permits: at least one call is made, at most `f` calls
are made, one delay is recorded per call except the last, and the run ends
either returning the value the operation produced on its last call, or
throwing exactly the error the operation produced on its last call — and a
thrown rate-limit error can only happen on the final permitted attempt. -/
lemma loop_master (op : Nat → Except ErrVal T) (mr d : Int) :
    ∀ (f a : Nat) (le : Option ErrVal), (a : Int) ≤ mr → (f : Int) = mr + 1 - a →
      1 ≤ (loop op mr d f a le).calls ∧
      (loop op mr d f a le).calls ≤ f ∧
      (loop op mr d f a le).delays.length = (loop op mr d f a le).calls - 1 ∧
      ((∃ v, (loop op mr d f a le).result = .ok v ∧
          op (a + (loop op mr d f a le).calls - 1) = .ok v) ∨
       (∃ err, (loop op mr d f a le).result = .thrown (some err) ∧
          op (a + (loop op mr d f a le).calls - 1) = .error err ∧
          (isRateLimit err = false ∨
            ((a : Int) + (loop op mr d f a le).calls = mr + 1)))) := by
  intro f
  induction f with
  | zero => intro a le h1 h2; exfalso; omega
  | succ f ih =>
    intro a le h1 h2
    cases hop : op a with
    | ok v =>
      rw [loop_ok op mr d f a le v h1 hop]
      refine ⟨le_refl 1, Nat.le_add_left 1 f, rfl, Or.inl ⟨v, rfl, ?_⟩⟩
      simpa using hop
    | error e =>
      cases hRL : isRateLimit e with
      | false =>
        rw [loop_throw op mr d f a le e h1 hop hRL]
        exact ⟨le_refl 1, Nat.le_add_left 1 f, rfl,
          Or.inr ⟨e, rfl, by simpa using hop, Or.inl hRL⟩⟩
      | true =>
        by_cases hlt : (a : Int) < mr
        · rw [loop_retry op mr d f a le e hlt hop hRL]
          obtain ⟨ih1, ih2, ih3, ih4⟩ :=
            ih (a + 1) (some e) (by push_cast; omega) (by push_cast at h2 ⊢; omega)
          refine ⟨?_, ?_, ?_, ?_⟩
          · show 1 ≤ (loop op mr d f (a + 1) (some e)).calls + 1
            omega
          · show (loop op mr d f (a + 1) (some e)).calls + 1 ≤ f + 1
            omega
          · show (delayMs e d a :: (loop op mr d f (a + 1) (some e)).delays).length
              = (loop op mr d f (a + 1) (some e)).calls + 1 - 1
            rw [List.length_cons, ih3]
            omega
          · have hidx : a + ((loop op mr d f (a + 1) (some e)).calls + 1) - 1
                = a + 1 + (loop op mr d f (a + 1) (some e)).calls - 1 := by omega
            rcases ih4 with ⟨v, hres, hopv⟩ | ⟨err, hres, hoperr, hlast⟩
            · exact Or.inl ⟨v, hres, by rw [hidx]; exact hopv⟩
            · refine Or.inr ⟨err, hres, by rw [hidx]; exact hoperr, ?_⟩
              rcases hlast with hfalse | hfin
              · exact Or.inl hfalse
              · refine Or.inr ?_
                show (a : Int) + (((loop op mr d f (a + 1) (some e)).calls + 1 : Nat) : Int)
                  = mr + 1
                push_cast at hfin ⊢
                omega
        · rw [loop_exhaust op mr d f a le e h1 hlt hop hRL]
          refine ⟨le_refl 1, Nat.le_add_left 1 f, rfl,
            Or.inr ⟨e, rfl, by simpa using hop, Or.inr ?_⟩⟩
          show (a : Int) + ((1 : Nat) : Int) = mr + 1
          push_cast
          omega

/-- If the first `k` attempts starting at `a` all fail with rate-limit
failures and attempt `a + k` succeeds, the run from `a` makes exactly `k + 1`
calls, records exactly `k` delays, and returns the success value. -/
lemma loop_ok_after (op : Nat → Except ErrVal T) (mr d : Int) (v : T) :
    ∀ (k a f : Nat) (le : Option ErrVal),
      ((a + k : Nat) : Int) ≤ mr → (f : Int) = mr + 1 - a →
      (∀ j, j < k → ∃ e, op (a + j) = Except.error e ∧ isRateLimit e = true) →
      op (a + k) = Except.ok v →
      (loop op mr d f a le).calls = k + 1 ∧
      (loop op mr d f a le).delays.length = k ∧
      (loop op mr d f a le).result = .ok v := by
  intro k
  induction k with
  | zero =>
    intro a f le hk hf hfail hok
    obtain ⟨g, rfl⟩ : ∃ g, f = g + 1 := ⟨f - 1, by omega⟩
    rw [loop_ok op mr d g a le v (by simpa using hk) (by simpa using hok)]
    exact ⟨rfl, rfl, rfl⟩
  | succ k ih =>
    intro a f le hk hf hfail hok
    obtain ⟨e, hope, hRLe⟩ := hfail 0 (Nat.succ_pos k)
    rw [Nat.add_zero] at hope
    obtain ⟨g, rfl⟩ : ∃ g, f = g + 1 := ⟨f - 1, by omega⟩
    have hlt : (a : Int) < mr := by push_cast at hk; omega
    rw [loop_retry op mr d g a le e hlt hope hRLe]
    obtain ⟨ih1, ih2, ih3⟩ := ih (a + 1) g (some e)
      (by push_cast at hk ⊢; omega) (by push_cast at hf ⊢; omega)
      (fun j hj => by
        have := hfail (j + 1) (by omega)
        simpa [Nat.add_assoc, Nat.add_comm 1 j] using this)
      (by
        have : a + 1 + k = a + (k + 1) := by omega
        rw [this]; exact hok)
    refine ⟨?_, ?_, ?_⟩
    · show (loop op mr d g (a + 1) (some e)).calls + 1 = k + 1 + 1
      omega
    · show (delayMs e d a :: (loop op mr d g (a + 1) (some e)).delays).length = k + 1
      rw [List.length_cons, ih2]
    · exact ih3

/-- Every wait recorded anywhere in a run comes from an attempt whose failure
was classified as a rate-limit failure, and equals `delayMs` for that attempt:
only classified failures are ever eligible for a delayed retry. -/
lemma loop_delays_mem (op : Nat → Except ErrVal T) (mr d : Int) :
    ∀ (f a : Nat) (le : Option ErrVal) (w : Int),
      w ∈ (loop op mr d f a le).delays →
      ∃ j e, op j = Except.error e ∧ isRateLimit e = true ∧ w = delayMs e d j := by
  intro f
  induction f with
  | zero => intro a le w hw; simp [loop] at hw
  | succ f ih =>
    intro a le w hw
    by_cases hle : (a : Int) ≤ mr
    · cases hop : op a with
      | ok v => rw [loop_ok op mr d f a le v hle hop] at hw; simp at hw
      | error e =>
        cases hRL : isRateLimit e with
        | false => rw [loop_throw op mr d f a le e hle hop hRL] at hw; simp at hw
        | true =>
          by_cases hlt : (a : Int) < mr
          · rw [loop_retry op mr d f a le e hlt hop hRL] at hw
            rcases List.mem_cons.mp hw with hw0 | hwrest
            · exact ⟨a, e, hop, hRL, hw0⟩
            · exact ih (a + 1) (some e) w hwrest
          · rw [loop_exhaust op mr d f a le e hle hlt hop hRL] at hw; simp at hw
    · have : loop op mr d (f + 1) a le = ⟨0, [], .thrown le⟩ := by simp [loop, hle]
      rw [this] at hw; simp at hw

end Lemmas

/-- C1: `withRateLimit` classifies a failure as a rate-limit failure iff its
`statusCode` field equals 429 or its `error` field equals the literal string
"Too Many Requests"; and every delayed retry the loop ever performs stems from
a failure so classified (every recorded wait belongs to an attempt whose
failure satisfies the classifier). -/
theorem claim1_classification :
    (∀ e : ErrVal, isRateLimit e = true ↔
      (e.statusCode = some 429 ∨ e.error = some "Too Many Requests")) ∧
    (∀ (T : Type) (op : Nat → Except ErrVal T) (mr d : Int) (f a : Nat)
        (le : Option ErrVal) (w : Int), w ∈ (loop op mr d f a le).delays →
      ∃ j e, op j = Except.error e ∧ isRateLimit e = true ∧ w = delayMs e d j) := by
  constructor
  · intro e
    simp [isRateLimit]
  · intro T op mr d f a le w hw
    exact loop_delays_mem op mr d f a le w hw

/-- Witness for C1 at concrete inputs: 429 is classified, and the first wait
of a run that retried twice on 429 comes from a classified failure. -/
theorem claim1_classification_witness :
    isRateLimit ⟨some 429, none, none⟩ = true ∧
    (1000 : Int) ∈ (loop (fun _ => (Except.error ⟨some 429, none, none⟩ :
      Except ErrVal Nat)) 2 1000 3 0 none).delays ∧
    ∃ j e, (fun _ => (Except.error ⟨some 429, none, none⟩ : Except ErrVal Nat)) j
        = Except.error e ∧ isRateLimit e = true ∧ (1000 : Int) = delayMs e 1000 j :=
  ⟨(claim1_classification.1 ⟨some 429, none, none⟩).mpr (Or.inl rfl), by decide,
   claim1_classification.2 Nat _ 2 1000 3 0 none 1000 (by decide)⟩

/-- C2 as stated is false: for a 429 failure carrying `retryAfter = 0` and
`initialDelay = 500`, the claimed formula `max((r if present, otherwise 1) *
1000, initialDelay * 2^0)` gives 500 ms, but the code (line 25 uses `||`,
which coerces the present falsy `0` to `1`) waits 1000 ms. -/
theorem claim2_counterexample :
    (withRateLimit (fun _ => (Except.error ⟨some 429, none, some 0⟩ :
        Except ErrVal Nat)) 5 500).delays.head? = some 1000 ∧
    claimedDelayC2 (some 0) 500 0 = 500 ∧ (1000 : Int) ≠ 500 :=
  ⟨by decide, by decide, by decide⟩

/-- C2 (amended): for every rate-limit failure on attempt index `i` with retry
budget remaining, the wait before the next attempt equals
`max((r if present and nonzero, otherwise 1) * 1000, initialDelay * 2^i)` ms. -/
theorem claim2_amended_delay {T : Type} (op : Nat → Except ErrVal T) (mr d : Int)
    (f a : Nat) (le : Option ErrVal) (e : ErrVal)
    (hop : op a = Except.error e) (hRL : isRateLimit e = true)
    (hlt : (a : Int) < mr) (hf : (f : Int) = mr + 1 - a) :
    (loop op mr d f a le).delays.head? = some (amendedDelay e.retryAfter d a) := by
  obtain ⟨g, rfl⟩ : ∃ g, f = g + 1 := ⟨f - 1, by omega⟩
  rw [loop_retry op mr d g a le e hlt hop hRL]
  show some (delayMs e d a) = some (amendedDelay e.retryAfter d a)
  cases h : e.retryAfter <;> simp [delayMs, amendedDelay, retryAfterOf, h]

/-- Witness for C2 (amended): a 429 failure with no `retryAfter` at attempt 0
under the default `initialDelay = 1000` waits `max(1000, 1000 * 2^0) = 1000` ms. -/
theorem claim2_amended_delay_witness :
    (loop (fun _ => (Except.error ⟨some 429, none, none⟩ : Except ErrVal Nat))
        5 1000 6 0 none).delays.head? = some (amendedDelay none 1000 0) ∧
    amendedDelay none 1000 0 = max 1000 (1000 * 2 ^ 0) ∧
    amendedDelay none 1000 0 = 1000 :=
  ⟨claim2_amended_delay (fun _ => (Except.error ⟨some 429, none, none⟩ :
      Except ErrVal Nat)) 5 1000 6 0 none ⟨some 429, none, none⟩ rfl (by decide)
      (by decide) (by decide), by decide, by decide⟩

/-- C3: with a non-negative `maxRetries` and an operation that fails with a
rate-limit failure on every attempt, `withRateLimit` calls the operation
exactly `maxRetries + 1` times and throws the failure of the final attempt. -/
theorem claim3_exhaustion {T : Type} (mr : Nat) (d : Int) (errs : Nat → ErrVal)
    (hRL : ∀ i, isRateLimit (errs i) = true) :
    (withRateLimit (T := T) (fun i => Except.error (errs i)) mr d).calls = mr + 1 ∧
    (withRateLimit (T := T) (fun i => Except.error (errs i)) mr d).result
      = .thrown (some (errs mr)) := by
  have hfuel : ((mr : Int) + 1).toNat = mr + 1 := by omega
  unfold withRateLimit
  rw [hfuel]
  obtain ⟨h1, h2, h3, h4⟩ := loop_master (T := T) (fun i => Except.error (errs i))
    mr d (mr + 1) 0 none (by push_cast; omega) (by push_cast; omega)
  rcases h4 with ⟨v, _, hopv⟩ | ⟨err, hres, hoperr, hlast⟩
  · exact absurd hopv (by simp)
  · have herr : errs (0 + (loop (T := T) (fun i => Except.error (errs i))
        mr d (mr + 1) 0 none).calls - 1) = err := by
      simpa using hoperr
    rcases hlast with hfalse | hfin
    · rw [← herr, hRL] at hfalse
      simp at hfalse
    · have hcalls : (loop (T := T) (fun i => Except.error (errs i))
          mr d (mr + 1) 0 none).calls = mr + 1 := by
        push_cast at hfin; omega
      refine ⟨hcalls, ?_⟩
      rw [hres, ← herr, hcalls]
      simp

/-- Witness for C3: with `maxRetries = 2` and an operation that always fails
with status 429, exactly 3 calls are made and the last 429 failure is thrown. -/
theorem claim3_exhaustion_witness :
    (withRateLimit (T := Nat) (fun _ => Except.error ⟨some 429, none, none⟩)
        2 1000).calls = 2 + 1 ∧
    (withRateLimit (T := Nat) (fun _ => Except.error ⟨some 429, none, none⟩)
        2 1000).result = .thrown (some ⟨some 429, none, none⟩) :=
  claim3_exhaustion (T := Nat) 2 1000 (fun _ => ⟨some 429, none, none⟩)
    (fun _ => rfl)

/-- C4: a failure not classified as a rate-limit failure is thrown at once —
one call at that attempt, no delay, no further attempts, whatever retry budget
remains; in particular an operation that fails non-retryably on attempt 0
yields exactly one call, no delays, and that exact failure thrown. -/
theorem claim4_nonretryable :
    (∀ (T : Type) (op : Nat → Except ErrVal T) (mr d : Int) (f a : Nat)
        (le : Option ErrVal) (e : ErrVal), op a = Except.error e →
        isRateLimit e = false → (a : Int) ≤ mr →
        loop op mr d (f + 1) a le = ⟨1, [], .thrown (some e)⟩) ∧
    (∀ (T : Type) (op : Nat → Except ErrVal T) (mr d : Int) (e : ErrVal),
        0 ≤ mr → op 0 = Except.error e → isRateLimit e = false →
        withRateLimit op mr d = ⟨1, [], .thrown (some e)⟩) := by
  constructor
  · intro T op mr d f a le e hop hRL hle
    exact loop_throw op mr d f a le e hle hop hRL
  · intro T op mr d e hmr hop hRL
    unfold withRateLimit
    obtain ⟨g, hg⟩ : ∃ g, (mr + 1).toNat = g + 1 := ⟨mr.toNat, by omega⟩
    rw [hg]
    exact loop_throw op mr d g 0 none e (by push_cast; omega) hop hRL

/-- Witness for C4: a 400 failure with `maxRetries = 5` is thrown after exactly
one call with no delay. -/
theorem claim4_nonretryable_witness :
    isRateLimit ⟨some 400, none, none⟩ = false ∧
    withRateLimit (fun _ => (Except.error ⟨some 400, none, none⟩ :
        Except ErrVal Nat)) 5 1000 = ⟨1, [], .thrown (some ⟨some 400, none, none⟩)⟩ :=
  ⟨by decide, claim4_nonretryable.2 Nat _ 5 1000 ⟨some 400, none, none⟩
    (by decide) rfl (by decide)⟩

/-- C5: an operation that succeeds on its first invocation yields exactly one
call, zero delays, and its result returned. -/
theorem claim5_first_success {T : Type} (op : Nat → Except ErrVal T)
    (mr d : Int) (v : T) (hmr : 0 ≤ mr) (hop : op 0 = Except.ok v) :
    withRateLimit op mr d = ⟨1, [], .ok v⟩ := by
  unfold withRateLimit
  obtain ⟨g, hg⟩ : ∃ g, (mr + 1).toNat = g + 1 := ⟨mr.toNat, by omega⟩
  rw [hg]
  exact loop_ok op mr d g 0 none v (by push_cast; omega) hop

/-- Witness for C5: an always-succeeding operation returns its value after one
call and no delay. -/
theorem claim5_first_success_witness :
    (0 : Int) ≤ 5 ∧
    withRateLimit (fun _ => (Except.ok 7 : Except ErrVal Nat)) 5 1000
      = ⟨1, [], .ok 7⟩ :=
  ⟨by decide, claim5_first_success (fun _ => (Except.ok 7 : Except ErrVal Nat))
    5 1000 7 (by decide) rfl⟩

/-- C6: whenever a rate-limit failure carrying `retryAfter = r` is retried,
the wait performed is exactly `delayMs` and is at least `r * 1000` ms: the
server-demanded floor dominates whenever it is larger. -/
theorem claim6_retry_after_floor {T : Type} (op : Nat → Except ErrVal T)
    (mr d : Int) (f a : Nat) (le : Option ErrVal) (e : ErrVal) (r : Int)
    (hop : op a = Except.error e) (hRL : isRateLimit e = true)
    (hlt : (a : Int) < mr) (hf : (f : Int) = mr + 1 - a)
    (hr : e.retryAfter = some r) :
    (loop op mr d f a le).delays.head? = some (delayMs e d a) ∧
    r * 1000 ≤ delayMs e d a := by
  obtain ⟨g, rfl⟩ : ∃ g, f = g + 1 := ⟨f - 1, by omega⟩
  rw [loop_retry op mr d g a le e hlt hop hRL]
  refine ⟨rfl, ?_⟩
  have hbase : retryAfterOf e * 1000 ≤ delayMs e d a := le_max_left _ _
  have hval : retryAfterOf e = if r = 0 then 1 else r := by
    simp [retryAfterOf, hr]
  rw [hval] at hbase
  by_cases hz : r = 0
  · rw [if_pos hz] at hbase
    subst hz
    simp only [zero_mul]
    linarith
  · rw [if_neg hz] at hbase
    exact hbase

/-- Witness for C6: a 429 failure with `retryAfter = 5` at attempt 0 waits at
least 5000 ms even though `initialDelay * 2^0 = 500 < 5000`. -/
theorem claim6_retry_after_floor_witness :
    (loop (fun _ => (Except.error ⟨some 429, none, some 5⟩ : Except ErrVal Nat))
        5 500 6 0 none).delays.head? = some (delayMs ⟨some 429, none, some 5⟩ 500 0) ∧
    (5 : Int) * 1000 ≤ delayMs ⟨some 429, none, some 5⟩ 500 0 :=
  claim6_retry_after_floor (fun _ => (Except.error ⟨some 429, none, some 5⟩ :
      Except ErrVal Nat)) 5 500 6 0 none ⟨some 429, none, some 5⟩ 5 rfl
    (by decide) (by decide) (by decide) rfl

/-- C7: with `maxRetries = 5` and an operation that fails with 429 on attempts
0 and 1 and succeeds on attempt 2, `withRateLimit` returns the success value,
performs exactly 2 delays, and makes exactly 3 calls. -/
theorem claim7_two_429_then_success {T : Type} (op : Nat → Except ErrVal T)
    (d : Int) (e0 e1 : ErrVal) (v : T)
    (h0 : op 0 = Except.error e0) (h0s : e0.statusCode = some 429)
    (h1 : op 1 = Except.error e1) (h1s : e1.statusCode = some 429)
    (h2 : op 2 = Except.ok v) :
    (withRateLimit op 5 d).result = .ok v ∧
    (withRateLimit op 5 d).delays.length = 2 ∧
    (withRateLimit op 5 d).calls = 3 := by
  have hRL0 : isRateLimit e0 = true := by simp [isRateLimit, h0s]
  have hRL1 : isRateLimit e1 = true := by simp [isRateLimit, h1s]
  have hfuel : ((5 : Int) + 1).toNat = 6 := by decide
  unfold withRateLimit
  rw [hfuel]
  obtain ⟨hc, hl, hres⟩ := loop_ok_after op 5 d v 2 0 6 none (by norm_num)
    (by norm_num)
    (fun j hj => by
      interval_cases j
      · exact ⟨e0, h0, hRL0⟩
      · exact ⟨e1, h1, hRL1⟩)
    h2
  exact ⟨hres, hl, hc⟩

/-- Witness for C7 at a concrete operation failing twice with 429 then
succeeding with 42. -/
theorem claim7_two_429_then_success_witness :
    (withRateLimit (fun i => if i < 2 then Except.error ⟨some 429, none, none⟩
        else Except.ok 42) 5 1000).result = .ok 42 ∧
    (withRateLimit (fun i => if i < 2 then Except.error ⟨some 429, none, none⟩
        else Except.ok 42) 5 1000).delays.length = 2 ∧
    (withRateLimit (fun i => if i < 2 then Except.error ⟨some 429, none, none⟩
        else Except.ok 42) 5 1000).calls = 3 :=
  claim7_two_429_then_success _ 1000 ⟨some 429, none, none⟩ ⟨some 429, none, none⟩
    42 rfl rfl rfl rfl rfl

/-- C8: whenever `withRateLimit` (with non-negative `maxRetries`) ends by
throwing, the thrown value is exactly the failure produced by the operation on
its final call — unwrapped and untransformed. -/
theorem claim8_original_failure {T : Type} (op : Nat → Except ErrVal T)
    (mr d : Int) (e : Option ErrVal) (hmr : 0 ≤ mr)
    (hthrow : (withRateLimit op mr d).result = .thrown e) :
    ∃ err, e = some err ∧ 1 ≤ (withRateLimit op mr d).calls ∧
      op ((withRateLimit op mr d).calls - 1) = Except.error err := by
  unfold withRateLimit at hthrow ⊢
  obtain ⟨h1, h2, h3, h4⟩ := loop_master op mr d (mr + 1).toNat 0 none
    (by push_cast; omega) (by omega)
  rcases h4 with ⟨v, hres, _⟩ | ⟨err, hres, hoperr, _⟩
  · rw [hres] at hthrow
    exact absurd hthrow (by simp)
  · rw [hres] at hthrow
    have he : e = some err := by
      injection hthrow with h
      exact h.symm
    exact ⟨err, he, h1, by simpa using hoperr⟩

/-- Witness for C8: an operation that always fails with status 400 throws
exactly that failure, produced by the single call made. -/
theorem claim8_original_failure_witness :
    ∃ err, (some ⟨some 400, none, none⟩ : Option ErrVal) = some err ∧
      1 ≤ (withRateLimit (fun _ => (Except.error ⟨some 400, none, none⟩ :
        Except ErrVal Nat)) 5 1000).calls ∧
      (fun _ => (Except.error ⟨some 400, none, none⟩ : Except ErrVal Nat))
          ((withRateLimit (fun _ => (Except.error ⟨some 400, none, none⟩ :
            Except ErrVal Nat)) 5 1000).calls - 1) = Except.error err :=
  claim8_original_failure (fun _ => (Except.error ⟨some 400, none, none⟩ :
    Except ErrVal Nat)) 5 1000 (some ⟨some 400, none, none⟩) (by decide) (by decide)

/-- C9: for every non-negative `maxRetries` and every operation,
`withRateLimit` terminates after at most `maxRetries + 1` calls, ending either
with the success value of the final call returned, or with the failure of the
final call thrown — and a thrown failure is either not a rate-limit failure or
the retry budget was exactly exhausted. No failure is silently swallowed. -/
theorem claim9_termination {T : Type} (mr : Nat) (op : Nat → Except ErrVal T)
    (d : Int) :
    (withRateLimit op mr d).calls ≤ mr + 1 ∧
    ((∃ v, (withRateLimit op mr d).result = .ok v ∧
        op ((withRateLimit op mr d).calls - 1) = Except.ok v) ∨
     (∃ err, (withRateLimit op mr d).result = .thrown (some err) ∧
        op ((withRateLimit op mr d).calls - 1) = Except.error err ∧
        (isRateLimit err = false ∨ (withRateLimit op mr d).calls = mr + 1))) := by
  have hfuel : ((mr : Int) + 1).toNat = mr + 1 := by omega
  unfold withRateLimit
  rw [hfuel]
  obtain ⟨h1, h2, h3, h4⟩ := loop_master op mr d (mr + 1) 0 none
    (by push_cast; omega) (by push_cast; omega)
  refine ⟨h2, ?_⟩
  rcases h4 with ⟨v, hres, hopv⟩ | ⟨err, hres, hoperr, hlast⟩
  · exact Or.inl ⟨v, hres, by simpa using hopv⟩
  · refine Or.inr ⟨err, hres, by simpa using hoperr, ?_⟩
    rcases hlast with hF | hfin
    · exact Or.inl hF
    · refine Or.inr ?_
      push_cast at hfin
      omega

/-- C10: a negative `maxRetries` makes `withRateLimit` call the operation zero
times and throw the uninitialised `lastError` (JS `undefined`, modelled as
`thrown none`) via the post-loop throw; with `maxRetries ≥ 0` every thrown
value is a failure actually produced by the operation at some permitted
attempt, so the post-loop throw never surfaces an unobserved value. -/
theorem claim10_negative_max_retries :
    (∀ (T : Type) (op : Nat → Except ErrVal T) (mr d : Int), mr < 0 →
        withRateLimit op mr d = ⟨0, [], .thrown none⟩) ∧
    (∀ (T : Type) (op : Nat → Except ErrVal T) (mr d : Int) (e : Option ErrVal),
        0 ≤ mr → (withRateLimit op mr d).result = .thrown e →
        ∃ err, e = some err ∧
          ∃ a : Nat, (a : Int) ≤ mr ∧ op a = Except.error err) := by
  constructor
  · intro T op mr d hneg
    unfold withRateLimit
    have h0 : (mr + 1).toNat = 0 := by omega
    rw [h0]
    rfl
  · intro T op mr d e hmr hthrow
    unfold withRateLimit at hthrow
    obtain ⟨h1, h2, h3, h4⟩ := loop_master op mr d (mr + 1).toNat 0 none
      (by push_cast; omega) (by omega)
    rcases h4 with ⟨v, hres, _⟩ | ⟨err, hres, hoperr, _⟩
    · rw [hres] at hthrow
      exact absurd hthrow (by simp)
    · rw [hres] at hthrow
      have he : e = some err := by
        injection hthrow with h
        exact h.symm
      refine ⟨err, he, (loop op mr d (mr + 1).toNat 0 none).calls - 1, ?_,
        by simpa using hoperr⟩
      omega

/-- Witness for C10: with `maxRetries = -1` the operation is never called and
`undefined` is thrown; with `maxRetries = 5` a thrown 400 failure was produced
by the operation at a permitted attempt. -/
theorem claim10_negative_max_retries_witness :
    withRateLimit (fun _ => (Except.ok 0 : Except ErrVal Nat)) (-1) 1000
      = ⟨0, [], .thrown none⟩ ∧
    ∃ err, (some ⟨some 400, none, none⟩ : Option ErrVal) = some err ∧
      ∃ a : Nat, (a : Int) ≤ 5 ∧
        (fun _ => (Except.error ⟨some 400, none, none⟩ : Except ErrVal Nat)) a
          = Except.error err :=
  ⟨claim10_negative_max_retries.1 Nat (fun _ => (Except.ok 0 : Except ErrVal Nat))
      (-1) 1000 (by decide),
   claim10_negative_max_retries.2 Nat (fun _ => (Except.error ⟨some 400, none, none⟩ :
      Except ErrVal Nat)) 5 1000 (some ⟨some 400, none, none⟩) (by decide) (by decide)⟩

end RateLimiter
